import Mathlib

/-!
Shallow embedding of the wasm_game simulation core (src/math.rs, src/player.rs,
src/level.rs, src/engine.rs).  f32 scalars are modelled as exact rationals.
Where a computation can produce a non-finite f32 value (the division by zero in
the n-way shot for count 1) the scalar is modelled as an Option ℚ whose none
stands for every non-finite result (±∞ and NaN).
-/

namespace WasmGame

/-- 2D point (math.rs Point; f32 coordinates modelled as ℚ). -/
structure Point where
  x : ℚ
  y : ℚ
  deriving DecidableEq

/-- 2D vector (math.rs Vector). -/
structure Vector where
  x : ℚ
  y : ℚ
  deriving DecidableEq

/-- Rotation of a vector by an angle in degrees (math.rs Vector::rotate).
The source computes cosv = cos(deg·π/180) and sinv = sin(deg·π/180) in f32;
those two transcendental scalars are taken as parameters here, the rotation
matrix itself is the source's. -/
def Vector.rotate (v : Vector) (cosv sinv : ℚ) : Vector :=
  { x := v.x * cosv - v.y * sinv, y := v.x * sinv + v.y * cosv }

/-- player.rs player_states constant FLOOR. -/
def FLOOR : ℚ := 475

/-- player.rs player_states constant NORMAL_LOOP. -/
def NORMAL_LOOP : ℕ := 30

/-- player.rs player_states constant RELOAD_TIME. -/
def RELOAD_TIME : ℕ := 120

/-- player.rs player_states constant BOMB_TIME. -/
def BOMB_TIME : ℕ := 60

/-- PlayerContext (player.rs 174-179).  frame is u8 in the source; every call
site of PlayerContext::update passes frame_count ≤ 120, so the increment
never wraps and ℕ is exact. -/
structure PlayerContext where
  frame : ℕ
  position : Point
  velocity : Point
  deriving DecidableEq

/-- The play-field clamp at the end of PlayerContext::update (player.rs
191-202): four successive boundary checks. -/
def clampPos (p : Point) : Point :=
  let x1 := if p.x < 50 then 50 else p.x
  let x2 := if x1 > 550 then 550 else x1
  let y1 := if p.y < 30 then 30 else p.y
  let y2 := if y1 > 570 then 570 else y1
  { x := x2, y := y2 }

/-- PlayerContext::update (player.rs 182-205): advance or wrap the animation
frame, integrate position by velocity, clamp to the play-field. -/
def PlayerContext.update (c : PlayerContext) (frame_count : ℕ) : PlayerContext :=
  { frame := if c.frame < frame_count then c.frame + 1 else 0,
    position := clampPos { x := c.position.x + c.velocity.x, y := c.position.y + c.velocity.y },
    velocity := c.velocity }

/-- PlayerContext::reset_frame (player.rs 207-210). -/
def PlayerContext.reset_frame (c : PlayerContext) : PlayerContext :=
  { c with frame := 0 }

/-- PlayerContext::is_collided (player.rs 212-218): squared-distance test
against (radius + 3.0)². -/
def PlayerContext.is_collided (c : PlayerContext) (point : Point) (radius : ℚ) : Bool :=
  let dx := point.x - c.position.x
  let dy := point.y - c.position.y
  let distance := dx * dx + dy * dy
  let r := radius + 3
  decide (distance < r * r)

/-- PlayerState::set_velocity (player.rs 233-237). -/
def PlayerContext.set_velocity (c : PlayerContext) (vx vy : ℚ) : PlayerContext :=
  { c with velocity := { x := vx, y := vy } }

/-- The player state machine (player.rs 73-78); the typestate parameter of the
source becomes the variant tag, each variant carrying its context. -/
inductive PlayerStateMachine where
  | Alive (c : PlayerContext)
  | Bombing (c : PlayerContext)
  | Reloading (c : PlayerContext)
  deriving DecidableEq

/-- PlayerEvent (player.rs 98-103). -/
inductive PlayerEvent where
  | Bomb
  | Hit
  | Update
  | Move (vx vy : ℚ)
  deriving DecidableEq

/-- PlayerStateMachine::transition (player.rs 108-130) together with the
per-state update/bomb/hit methods it dispatches to (player.rs 252-346);
unmatched state/event pairs fall through to the identity. -/
def PlayerStateMachine.transition (m : PlayerStateMachine) (e : PlayerEvent) : PlayerStateMachine :=
  match m, e with
  | .Alive c, .Move vx vy => .Alive (c.set_velocity vx vy)
  | .Bombing c, .Move vx vy => .Bombing (c.set_velocity vx vy)
  | .Alive c, .Bomb => .Bombing c.reset_frame
  | .Alive c, .Hit => .Reloading c.reset_frame
  | .Alive c, .Update => .Alive (c.update NORMAL_LOOP)
  | .Bombing c, .Update =>
    let c2 := c.update BOMB_TIME
    if BOMB_TIME ≤ c2.frame then .Alive c2.reset_frame else .Bombing c2
  | .Reloading c, .Update =>
    let c2 := c.update RELOAD_TIME
    if RELOAD_TIME ≤ c2.frame then .Alive c2.reset_frame else .Reloading c2
  | m2, _ => m2

/-- PlayerStateMachine::context (player.rs 132-138). -/
def PlayerStateMachine.context : PlayerStateMachine → PlayerContext
  | .Alive c => c
  | .Bombing c => c
  | .Reloading c => c

/-- Player::new (player.rs 13-17 and PlayerState::new, player.rs 241-250). -/
def Player.new : PlayerStateMachine :=
  .Alive { frame := 0, position := { x := 300, y := FLOOR }, velocity := { x := 0, y := 0 } }

/-- Player::update (player.rs 23-25): the Update transition first, then the
Move transition with the freshly derived velocity. -/
def Player.update (m : PlayerStateMachine) (vx vy : ℚ) : PlayerStateMachine :=
  (m.transition .Update).transition (.Move vx vy)

/-- BulletEventType (level.rs 180-184). -/
inductive BulletEventType where
  | RotateVel (deg : ℚ)
  | SetVel (v : Vector)
  | SetAcc (a : Vector)
  deriving DecidableEq

/-- BulletEvent (level.rs 186-190); the source field `at` is a Lean keyword
and is rendered at'.  It is u16 in the source. -/
structure BulletEvent where
  at' : ℕ
  event_ty : BulletEventType
  deriving DecidableEq

/-- Bullet (level.rs 109-117).  frame is u16 in the source and wraps at 2^16. -/
structure Bullet where
  frame : ℕ
  pos : Point
  vel : Vector
  acc : Vector
  events : List BulletEvent
  next_event : Option ℕ
  deriving DecidableEq

/-- Bullet::new (level.rs 120-129). -/
def Bullet.new (pos : Point) (vel acc : Vector) (events : List BulletEvent) : Bullet :=
  { frame := 0, pos := pos, vel := vel, acc := acc,
    next_event := if events.isEmpty then none else some 0, events := events }

/-- Bullet::update (level.rs 131-163).  trig deg gives (cos, sin) of
deg·π/180 as the source's f32 trig would; it is a parameter because those
scalars are transcendental and every theorem below holds for all of them.
Indexing self.events out of range panics in Rust and is modelled as none;
the u16 frame increment wraps (release-profile semantics). -/
def Bullet.update (trig : ℚ → ℚ × ℚ) (b : Bullet) : Option Bullet :=
  let frame2 := (b.frame + 1) % 65536
  let vel2 : Vector := { x := b.vel.x + b.acc.x, y := b.vel.y + b.acc.y }
  let pos2 : Point := { x := b.pos.x + vel2.x, y := b.pos.y + vel2.y }
  match b.next_event with
  | none => some { b with frame := frame2, vel := vel2, pos := pos2 }
  | some i =>
    match b.events.get? i with
    | none => none
    | some ev =>
      if ev.at' ≠ frame2 then
        some { b with frame := frame2, vel := vel2, pos := pos2 }
      else
        let vel3 := match ev.event_ty with
          | .RotateVel deg => vel2.rotate (trig deg).1 (trig deg).2
          | .SetVel v => v
          | .SetAcc _ => vel2
        let acc3 := match ev.event_ty with
          | .SetAcc a => a
          | _ => b.acc
        some { frame := frame2, pos := pos2, vel := vel3, acc := acc3,
               events := b.events,
               next_event := if i = b.events.length - 1 then none else some (i + 1) }

/-- Iterated Bullet::update, propagating the panic case. -/
def Bullet.updateN (trig : ℚ → ℚ × ℚ) : ℕ → Bullet → Option Bullet
  | 0, b => some b
  | k + 1, b => (Bullet.updateN trig k b).bind (Bullet.update trig)

/-- Bullet::in_canvas (level.rs 170-172). -/
def Bullet.in_canvas (b : Bullet) : Bool :=
  decide (b.pos.x ≤ 550) && decide (50 ≤ b.pos.x) && decide (b.pos.y ≤ 570) && decide (30 ≤ b.pos.y)

/-- The bullet cull pass of Level::update (level.rs 88):
bullets.retain(in_canvas). -/
def cullBullets (bs : List Bullet) : List Bullet :=
  bs.filter Bullet.in_canvas

/-- Player::is_collided (player.rs 35-39): tests the bullet body with radius
10 against the player context. -/
def Player.is_collided (m : PlayerStateMachine) (b : Bullet) : Bool :=
  m.context.is_collided b.pos 10

/-- Observer reading off Bullet::update's event guard (level.rs 138-143):
the event index the next update of b will apply, or none. -/
def Bullet.firesNow (b : Bullet) : Option ℕ :=
  match b.next_event with
  | none => none
  | some i =>
    match b.events.get? i with
    | none => none
    | some ev => if ev.at' = (b.frame + 1) % 65536 then some i else none

/-- The event index applied during update number k+1 of bullet b. -/
def firesAt (trig : ℚ → ℚ × ℚ) (b : Bullet) (k : ℕ) : Option ℕ :=
  (Bullet.updateN trig k b).bind Bullet.firesNow

/-- Index of the first event with trigger tick strictly greater than k; this
is the value the event cursor holds after tick k when the authored ticks are
strictly increasing. -/
def firstIdxGt : List BulletEvent → ℕ → Option ℕ
  | [], _ => none
  | e :: es, k => if k < e.at' then some 0 else (firstIdxGt es k).map (· + 1)

/-- The authored event list of the bullet created in Level::new
(level.rs 45-67). -/
def levelBulletEvents : List BulletEvent :=
  [ { at' := 20, event_ty := .RotateVel 30 },
    { at' := 40, event_ty := .RotateVel 30 },
    { at' := 60, event_ty := .SetAcc { x := 0.05, y := 0.02 } },
    { at' := 80, event_ty := .SetVel { x := -0.3, y := 0 } } ]

/-- f32 division as used by the n-way shot: division by zero produces a
non-finite value (±∞, or NaN for 0/0), modelled as none. -/
def fdiv (a b : ℚ) : Option ℚ := if b = 0 then none else some (a / b)

/-- f32 multiplication by a finite scalar: a non-finite left operand never
yields a finite product (∞·0 = NaN, NaN·x = NaN, ∞·x = ±∞); finite values at
the magnitudes involved never overflow. -/
def fmul (a : Option ℚ) (b : ℚ) : Option ℚ := a.map (fun q => q * b)

/-- f32 addition of a finite scalar on the left: non-finite operands
propagate. -/
def fadd (a : ℚ) (b : Option ℚ) : Option ℚ := b.map (fun q => a + q)

/-- The headings, in degrees, of the bullets pushed by the Nways arm of
Enemy::update (level.rs 224-237): step = wide_deg/(n-1) and heading i =
center_deg - wide_deg/2 + step·i for i in 0..n.  One bullet is pushed per
heading (its velocity is from_deg_and_mag heading 2.0, not part of src/). -/
def nwaysDegs (n : ℕ) (wide_deg center_deg : ℚ) : List (Option ℚ) :=
  let step := fdiv wide_deg ((n : ℚ) - 1)
  (List.range n).map (fun (i : ℕ) => fadd (center_deg - wide_deg / 2) (fmul step (i : ℚ)))

/-- engine.rs 20: FRAME_SIZE = 1/60·1000 ms. -/
def FRAME_SIZE : ℚ := 1 / 60 * 1000

/-- The catch-up loop of the per-frame callback (engine.rs 48-51): while
accumulated_delta > FRAME_SIZE (strict), run one logical update and subtract
FRAME_SIZE.  fuel bounds the iterations; every use below supplies enough for
the loop to stop on its own.  Returns (updates run, leftover accumulator). -/
def gameLoopSteps : ℕ → ℚ → ℕ × ℚ
  | 0, acc => (0, acc)
  | fuel + 1, acc =>
    if FRAME_SIZE < acc then
      let r := gameLoopSteps fuel (acc - FRAME_SIZE)
      (r.1 + 1, r.2)
    else (0, acc)

/-- Modelled from the spec: the same loop with the spec's loop condition,
"while the accumulated delta is ≥ FIXED_STEP", for comparison with
gameLoopSteps (the source condition is a strict greater-than). -/
def specLoopSteps : ℕ → ℚ → ℕ × ℚ
  | 0, acc => (0, acc)
  | fuel + 1, acc =>
    if FRAME_SIZE ≤ acc then
      let r := specLoopSteps fuel (acc - FRAME_SIZE)
      (r.1 + 1, r.2)
    else (0, acc)

/-- Modelled from the spec: the per-tick player order the spec prescribes,
Move first and Update second, for comparison with Player.update (the source
runs Update first). -/
def specMoveThenUpdate (m : PlayerStateMachine) (vx vy : ℚ) : PlayerStateMachine :=
  (m.transition (.Move vx vy)).transition .Update

/-- Fold a stimulus sequence through the player state machine. -/
def applyEvents (evs : List PlayerEvent) (m : PlayerStateMachine) : PlayerStateMachine :=
  evs.foldl PlayerStateMachine.transition m

/-- Iterate the Update stimulus. -/
def applyUpdates : ℕ → PlayerStateMachine → PlayerStateMachine
  | 0, m => m
  | k + 1, m => (applyUpdates k m).transition .Update

/-- The play-field rectangle the player position is clamped to. -/
def inRect (p : Point) : Prop :=
  50 ≤ p.x ∧ p.x ≤ 550 ∧ 30 ≤ p.y ∧ p.y ≤ 570

instance decidableInRect (p : Point) : Decidable (inRect p) := by
  unfold inRect
  infer_instance

/-! ## Helper lemmas -/

theorem clampPos_inRect (p : Point) : inRect (clampPos p) := by
  simp only [clampPos, inRect]
  split_ifs <;> refine ⟨?_, ?_, ?_, ?_⟩ <;> simp_all [not_lt] <;> linarith

theorem clampPos_of_inRect (p : Point) (h : inRect p) : clampPos p = p := by
  obtain ⟨h1, h2, h3, h4⟩ := h
  simp only [clampPos]
  rw [if_neg (not_lt.mpr h1), if_neg (not_lt.mpr h2), if_neg (not_lt.mpr h3),
    if_neg (not_lt.mpr h4)]

theorem transition_update_position (m : PlayerStateMachine) :
    (m.transition .Update).context.position =
      clampPos { x := m.context.position.x + m.context.velocity.x,
                 y := m.context.position.y + m.context.velocity.y } := by
  cases m with
  | Alive c => rfl
  | Bombing c =>
    simp only [PlayerStateMachine.transition]
    split <;> rfl
  | Reloading c =>
    simp only [PlayerStateMachine.transition]
    split <;> rfl

theorem transition_nonupdate_position (m : PlayerStateMachine) (e : PlayerEvent)
    (he : e ≠ .Update) :
    (m.transition e).context.position = m.context.position := by
  cases m <;> cases e <;> first | rfl | exact absurd rfl he

theorem transition_preserves_inRect (m : PlayerStateMachine) (e : PlayerEvent)
    (h : inRect m.context.position) : inRect ((m.transition e).context.position) := by
  cases e with
  | Update => rw [transition_update_position]; exact clampPos_inRect _
  | Bomb => rwa [transition_nonupdate_position _ _ (fun hh => PlayerEvent.noConfusion hh)]
  | Hit => rwa [transition_nonupdate_position _ _ (fun hh => PlayerEvent.noConfusion hh)]
  | Move vx vy => rwa [transition_nonupdate_position _ _ (fun hh => PlayerEvent.noConfusion hh)]

theorem applyEvents_inRect (evs : List PlayerEvent) :
    ∀ m, inRect m.context.position → inRect ((applyEvents evs m).context.position) := by
  induction evs with
  | nil => intro m h; exact h
  | cons e tl ih =>
    intro m h
    exact ih _ (transition_preserves_inRect m e h)

theorem gameLoopSteps_of_le (fuel : ℕ) (acc : ℚ) (h : acc ≤ FRAME_SIZE) :
    gameLoopSteps fuel acc = (0, acc) := by
  cases fuel with
  | zero => rfl
  | succ n =>
    simp only [gameLoopSteps]
    rw [if_neg (not_lt.mpr h)]

theorem specLoopSteps_fs (fuel : ℕ) : specLoopSteps (fuel + 1 + 1) FRAME_SIZE = (1, 0) := by
  have hz : ¬FRAME_SIZE ≤ (0 : ℚ) := by norm_num [FRAME_SIZE]
  simp only [specLoopSteps, sub_self, le_refl, if_true]
  rw [if_neg hz]

theorem nwaysDegs_four : nwaysDegs 4 90 90 = [some 45, some 75, some 105, some 135] := by
  have hr : List.range 4 = [0, 1, 2, 3] := rfl
  simp only [nwaysDegs, hr, List.map_cons, List.map_nil]
  norm_num [fdiv, fmul, fadd]

theorem nwaysDegs_one : nwaysDegs 1 90 90 = [none] := by
  have hr : List.range 1 = [0] := rfl
  simp only [nwaysDegs, hr, List.map_cons, List.map_nil]
  norm_num [fdiv, fmul, fadd]

theorem applyUpdates_new_eq (k : ℕ) :
    applyUpdates k Player.new =
      .Alive { frame := k % 31, position := { x := 300, y := 475 },
               velocity := { x := 0, y := 0 } } := by
  induction k with
  | zero => rfl
  | succ n ih =>
    rw [applyUpdates, ih]
    have h30 : clampPos { x := (300 : ℚ) + 0, y := (475 : ℚ) + 0 } =
        ({ x := 300, y := 475 } : Point) := by
      norm_num [clampPos]
    simp only [PlayerStateMachine.transition, PlayerContext.update, NORMAL_LOOP, h30,
      PlayerStateMachine.Alive.injEq, PlayerContext.mk.injEq, and_true, true_and]
    split_ifs <;> omega

/-! ## Claim theorems -/

/-- C1 counterexample: with a fresh player and input velocity (6, 0), the
source's tick (Update before Move) leaves the position at x = 300, while the
spec's order (Move before Update) would move it to x = 306. -/
theorem player_tick_order_counterexample :
    Player.update Player.new 6 0 ≠ specMoveThenUpdate Player.new 6 0 ∧
    (Player.update Player.new 6 0).context.position.x = 300 ∧
    (specMoveThenUpdate Player.new 6 0).context.position.x = 306 := by
  have h1 : Player.update Player.new 6 0 =
      .Alive { frame := 1, position := { x := 300, y := 475 }, velocity := { x := 6, y := 0 } } := by
    norm_num [Player.update, Player.new, PlayerStateMachine.transition, PlayerContext.update,
      PlayerContext.set_velocity, NORMAL_LOOP, FLOOR, clampPos]
  have h2 : specMoveThenUpdate Player.new 6 0 =
      .Alive { frame := 1, position := { x := 306, y := 475 }, velocity := { x := 6, y := 0 } } := by
    norm_num [specMoveThenUpdate, Player.new, PlayerStateMachine.transition, PlayerContext.update,
      PlayerContext.set_velocity, NORMAL_LOOP, FLOOR, clampPos]
  rw [h1, h2]
  refine ⟨fun hcontra => ?_, rfl, rfl⟩
  have hx := congrArg (fun m => m.context.position.x) hcontra
  simp only [PlayerStateMachine.context] at hx
  norm_num at hx

/-- C1 (corrected): Player::update applies the Update transition before the
Move transition, so the position integrated during a tick uses the previous
tick's velocity, and the velocity derived from this tick's input is merely
stored for the next tick. -/
theorem player_tick_update_before_move :
    (∀ (m : PlayerStateMachine) (vx vy : ℚ),
      (Player.update m vx vy).context.position =
        clampPos { x := m.context.position.x + m.context.velocity.x,
                   y := m.context.position.y + m.context.velocity.y }) ∧
    (∀ (c : PlayerContext) (vx vy : ℚ),
      Player.update (.Alive c) vx vy =
        .Alive { frame := if c.frame < NORMAL_LOOP then c.frame + 1 else 0,
                 position := clampPos { x := c.position.x + c.velocity.x,
                                        y := c.position.y + c.velocity.y },
                 velocity := { x := vx, y := vy } }) := by
  constructor
  · intro m vx vy
    unfold Player.update
    rw [transition_nonupdate_position _ _ (fun hh => PlayerEvent.noConfusion hh)]
    exact transition_update_position m
  · intro c vx vy
    rfl

/-- C1 witness: the corrected statement evaluated on a fresh player context. -/
theorem player_tick_update_before_move_witness :
    Player.update
        (.Alive { frame := 0, position := { x := 300, y := 475 },
                  velocity := { x := 0, y := 0 } }) 6 0 =
      .Alive { frame := if (0 : ℕ) < NORMAL_LOOP then 0 + 1 else 0,
               position := clampPos { x := 300 + 0, y := 475 + 0 },
               velocity := { x := 6, y := 0 } } :=
  player_tick_update_before_move.2 _ 6 0

/-- C2 counterexample: the bullet at (314, 475) is within the claimed
16-unit threshold of the fresh player at (300, 475) (squared distance
196 < 256), yet the source reports no collision (its threshold is 13²=169). -/
theorem collision_threshold_counterexample :
    Player.is_collided Player.new
        (Bullet.new { x := 314, y := 475 } { x := 0, y := 0 } { x := 0, y := 0 } []) = false ∧
    ((314 : ℚ) - 300) * (314 - 300) + (475 - 475) * (475 - 475) <
      ((3 : ℚ) + 10 + 3) * (3 + 10 + 3) := by
  constructor
  · norm_num [Player.is_collided, PlayerContext.is_collided, Player.new,
      PlayerStateMachine.context, Bullet.new, FLOOR]
  · norm_num

/-- C2 (corrected): the player-vs-bullet test is true iff the squared distance
is strictly below (r2 + ε)² = (10 + 3)² = 169 — the player hitbox radius is
never added — and the two concrete examples of the claim still hold. -/
theorem collision_iff_sq_dist_lt_169 :
    (∀ (m : PlayerStateMachine) (b : Bullet),
      Player.is_collided m b = true ↔
        (b.pos.x - m.context.position.x) * (b.pos.x - m.context.position.x) +
          (b.pos.y - m.context.position.y) * (b.pos.y - m.context.position.y) <
          ((10 : ℚ) + 3) * (10 + 3)) ∧
    Player.is_collided Player.new
        (Bullet.new { x := 305, y := 475 } { x := 0, y := 0 } { x := 0, y := 0 } []) = true ∧
    Player.is_collided Player.new
        (Bullet.new { x := 320, y := 475 } { x := 0, y := 0 } { x := 0, y := 0 } []) = false := by
  refine ⟨fun m b => ?_, ?_, ?_⟩
  · simp [Player.is_collided, PlayerContext.is_collided]
  · norm_num [Player.is_collided, PlayerContext.is_collided, Player.new,
      PlayerStateMachine.context, Bullet.new, FLOOR]
  · norm_num [Player.is_collided, PlayerContext.is_collided, Player.new,
      PlayerStateMachine.context, Bullet.new, FLOOR]

/-- C2 witness: the corrected criterion evaluated at the bullet (305, 475). -/
theorem collision_iff_sq_dist_lt_169_witness :
    Player.is_collided Player.new
        (Bullet.new { x := 305, y := 475 } { x := 0, y := 0 } { x := 0, y := 0 } []) = true ↔
      ((305 : ℚ) - 300) * (305 - 300) + ((475 : ℚ) - 475) * (475 - 475) <
        ((10 : ℚ) + 3) * (10 + 3) :=
  collision_iff_sq_dist_lt_169.1 _ _

/-- C4 counterexample: with the accumulator exactly equal to FRAME_SIZE, the
source's strict loop runs zero updates, while the spec's ≥ loop would run
one. -/
theorem scheduler_strict_counterexample :
    gameLoopSteps 10 FRAME_SIZE = (0, FRAME_SIZE) ∧
    specLoopSteps 10 FRAME_SIZE = (1, 0) := by
  constructor
  · exact gameLoopSteps_of_le 10 FRAME_SIZE le_rfl
  · show specLoopSteps (8 + 1 + 1) FRAME_SIZE = (1, 0)
    exact specLoopSteps_fs 8

/-- C4 (corrected): the loop runs while the accumulator is strictly greater
than FIXED_STEP (no update when they are equal), and a 50 ms delta from an
empty accumulator yields exactly 2 updates with 50/3 ≈ 16.67 ms left over. -/
theorem scheduler_loop_strict :
    (∀ (fuel : ℕ) (acc : ℚ), acc ≤ FRAME_SIZE → gameLoopSteps fuel acc = (0, acc)) ∧
    (∀ fuel : ℕ, 3 ≤ fuel → gameLoopSteps fuel 50 = (2, 50 / 3)) := by
  constructor
  · exact gameLoopSteps_of_le
  · intro fuel h
    obtain ⟨k, rfl⟩ : ∃ k, fuel = k + 1 + 1 + 1 := ⟨fuel - 3, by omega⟩
    have h1 : FRAME_SIZE < 50 := by norm_num [FRAME_SIZE]
    have h2 : FRAME_SIZE < 50 - FRAME_SIZE := by norm_num [FRAME_SIZE]
    have h3 : ¬FRAME_SIZE < 50 - FRAME_SIZE - FRAME_SIZE := by norm_num [FRAME_SIZE]
    simp only [gameLoopSteps, if_pos h1, if_pos h2, if_neg h3]
    norm_num [FRAME_SIZE]

/-- C4 witness: the corrected statement at the accumulator value 50/3 (no
update) and at the 50 ms frame delta (two updates). -/
theorem scheduler_loop_strict_witness :
    gameLoopSteps 2 (50 / 3) = (0, 50 / 3) ∧ gameLoopSteps 3 50 = (2, 50 / 3) :=
  ⟨scheduler_loop_strict.1 2 (50 / 3) (by norm_num [FRAME_SIZE]),
   scheduler_loop_strict.2 3 (by norm_num)⟩

/-- C3 counterexample: the Nways arm with count 1 divides the spread by zero,
so the single bullet's heading is non-finite (NaN), not the center 90°. -/
theorem nways_single_counterexample :
    nwaysDegs 1 90 90 = [none] ∧ nwaysDegs 1 90 90 ≠ [some (90 : ℚ)] := by
  refine ⟨nwaysDegs_one, ?_⟩
  rw [nwaysDegs_one]
  simp

/-- C3 (corrected): the Nways arm always pushes exactly n bullets; for
n ≥ 2 the headings are center - spread/2 + i·spread/(n-1) (for count 4,
spread 90, center 90 they are 45°, 75°, 105°, 135°); for n = 1 the single
heading is the non-finite result of the division by zero, not center. -/
theorem nways_headings :
    (∀ (n : ℕ) (wide_deg center_deg : ℚ), (nwaysDegs n wide_deg center_deg).length = n) ∧
    (∀ (n : ℕ) (wide_deg center_deg : ℚ), 2 ≤ n →
      nwaysDegs n wide_deg center_deg =
        (List.range n).map
          (fun (i : ℕ) => some (center_deg - wide_deg / 2 + wide_deg / ((n : ℚ) - 1) * (i : ℚ)))) ∧
    nwaysDegs 4 90 90 = [some 45, some 75, some 105, some 135] ∧
    nwaysDegs 1 90 90 = [none] := by
  refine ⟨fun n w c => by simp only [nwaysDegs, List.length_map, List.length_range],
    fun n w c hn => ?_, nwaysDegs_four, nwaysDegs_one⟩
  have hz : ((n : ℚ) - 1) ≠ 0 := by
    have h2 : (2 : ℚ) ≤ (n : ℚ) := by exact_mod_cast hn
    linarith
  simp [nwaysDegs, fdiv, fmul, fadd, hz]

/-- C3 witness: the n ≥ 2 formula instantiated at count 4, spread 90,
center 90. -/
theorem nways_headings_witness :
    nwaysDegs 4 90 90 =
      (List.range 4).map
        (fun (i : ℕ) => some ((90 : ℚ) - 90 / 2 + 90 / (((4 : ℕ) : ℚ) - 1) * (i : ℚ))) :=
  nways_headings.2.1 4 90 90 (by norm_num)

/-- C5 counterexample: after 30 Update stimuli from a fresh player the frame
is 30, not 0, so the cycle is not 30 ticks long and 30 is a reachable frame. -/
theorem alive_frame_cycle_counterexample :
    (applyUpdates 30 Player.new).context.frame = 30 := by
  rw [applyUpdates_new_eq 30]
  rfl

/-- C5 (corrected): from a fresh player, repeated Update stimuli cycle the
animation frame through 0..30 with period 31: the guard frame < NORMAL_LOOP
lets the frame reach 30 before wrapping to 0. -/
theorem alive_frame_cycle_31 :
    ∀ k : ℕ, (applyUpdates k Player.new).context.frame = k % 31 ∧
      (applyUpdates k Player.new).context.frame ≤ 30 := by
  intro k
  rw [applyUpdates_new_eq k]
  exact ⟨rfl, by simp [PlayerStateMachine.context]; omega⟩

/-- C5 witness: after 31 updates the frame has wrapped back to 0. -/
theorem alive_frame_cycle_31_witness :
    (applyUpdates 31 Player.new).context.frame = 31 % 31 ∧
      (applyUpdates 31 Player.new).context.frame ≤ 30 :=
  alive_frame_cycle_31 31

/-- C7: Hit in Alive moves to Reloading with the frame reset to 0 and the
position and velocity kept; Hit and Move received while Reloading are
dropped without any change (the transition is total, no error path). -/
theorem hit_transitions_and_reloading_noop :
    (∀ c : PlayerContext, (PlayerStateMachine.Alive c).transition .Hit =
        .Reloading { frame := 0, position := c.position, velocity := c.velocity }) ∧
    (∀ c : PlayerContext, (PlayerStateMachine.Reloading c).transition .Hit = .Reloading c) ∧
    (∀ (c : PlayerContext) (vx vy : ℚ),
        (PlayerStateMachine.Reloading c).transition (.Move vx vy) = .Reloading c) :=
  ⟨fun _ => rfl, fun _ => rfl, fun _ _ _ => rfl⟩

/-- C7 witness: the three statements evaluated on a concrete context. -/
theorem hit_transitions_and_reloading_noop_witness :
    (PlayerStateMachine.Alive { frame := 5, position := { x := 301, y := 474 }, velocity := { x := 1, y := 2 } }).transition .Hit =
      .Reloading { frame := 0, position := { x := 301, y := 474 }, velocity := { x := 1, y := 2 } } ∧
    (PlayerStateMachine.Reloading { frame := 7, position := { x := 301, y := 474 }, velocity := { x := 1, y := 2 } }).transition .Hit =
      .Reloading { frame := 7, position := { x := 301, y := 474 }, velocity := { x := 1, y := 2 } } :=
  ⟨hit_transitions_and_reloading_noop.1 _, hit_transitions_and_reloading_noop.2.1 _⟩

/-- C8: a bullet survives the cull pass iff 50 ≤ x ≤ 550 and 30 ≤ y ≤ 570;
(551, 100) is culled and (550, 100) is retained. -/
theorem cull_retains_iff_in_bounds :
    (∀ b : Bullet, b.in_canvas = true ↔
      (50 ≤ b.pos.x ∧ b.pos.x ≤ 550 ∧ 30 ≤ b.pos.y ∧ b.pos.y ≤ 570)) ∧
    (∀ (bs : List Bullet) (b : Bullet), b ∈ cullBullets bs ↔ b ∈ bs ∧ b.in_canvas = true) ∧
    (Bullet.new { x := 551, y := 100 } { x := 0, y := 0 } { x := 0, y := 0 } []).in_canvas
      = false ∧
    (Bullet.new { x := 550, y := 100 } { x := 0, y := 0 } { x := 0, y := 0 } []).in_canvas
      = true := by
  refine ⟨fun b => ?_, fun bs b => ?_, ?_, ?_⟩
  · simp only [Bullet.in_canvas, Bool.and_eq_true, decide_eq_true_eq]
    tauto
  · simp [cullBullets, List.mem_filter]
  · norm_num [Bullet.in_canvas, Bullet.new]
  · norm_num [Bullet.in_canvas, Bullet.new]

/-- C8 witness: the retention criterion evaluated at the boundary bullet
(550, 100). -/
theorem cull_retains_iff_in_bounds_witness :
    (Bullet.new { x := 550, y := 100 } { x := 0, y := 0 } { x := 0, y := 0 } []).in_canvas
        = true ↔
      ((50 : ℚ) ≤ 550 ∧ (550 : ℚ) ≤ 550 ∧ (30 : ℚ) ≤ 100 ∧ (100 : ℚ) ≤ 570) :=
  cull_retains_iff_in_bounds.1 _

/-- C9: from Player::new the position starts inside the play-field rectangle,
stays inside it under every stimulus sequence, and only Update ever changes
the position. -/
theorem player_position_invariant :
    inRect Player.new.context.position ∧
    (∀ evs : List PlayerEvent, inRect ((applyEvents evs Player.new).context.position)) ∧
    (∀ (m : PlayerStateMachine) (e : PlayerEvent), e ≠ .Update →
      (m.transition e).context.position = m.context.position) := by
  have hnew : inRect Player.new.context.position := by
    norm_num [inRect, Player.new, PlayerStateMachine.context, FLOOR]
  exact ⟨hnew, fun evs => applyEvents_inRect evs Player.new hnew,
    transition_nonupdate_position⟩

/-- C9 witness: the invariant on a concrete stimulus sequence that pushes
against the clamp, and position preservation under Bomb. -/
theorem player_position_invariant_witness :
    inRect ((applyEvents [PlayerEvent.Move 1000 1000, PlayerEvent.Update]
        Player.new).context.position) ∧
    ((Player.new).transition PlayerEvent.Bomb).context.position =
      Player.new.context.position :=
  ⟨player_position_invariant.2.1 _,
   player_position_invariant.2.2 _ _ (fun hh => PlayerEvent.noConfusion hh)⟩

/-- C10: while Reloading, each Update still integrates position += velocity
and clamps it; with a nonzero frozen velocity the player keeps moving. -/
theorem reloading_update_integrates :
    (∀ c : PlayerContext,
      ((PlayerStateMachine.Reloading c).transition .Update).context.position =
        clampPos { x := c.position.x + c.velocity.x, y := c.position.y + c.velocity.y }) ∧
    ((PlayerStateMachine.Reloading { frame := 0, position := { x := 300, y := 475 }, velocity := { x := 6, y := 0 } }).transition .Update).context.position =
      { x := 306, y := 475 } := by
  constructor
  · intro c
    exact transition_update_position (PlayerStateMachine.Reloading c)
  · rw [transition_update_position]
    norm_num [PlayerStateMachine.context, clampPos]

/-- C10 witness: the integration statement evaluated on a concrete reloading
context whose velocity drags the position into the clamp. -/
theorem reloading_update_integrates_witness :
    ((PlayerStateMachine.Reloading { frame := 3, position := { x := 100, y := 100 }, velocity := { x := -60, y := 0 } }).transition .Update).context.position =
      clampPos { x := 100 + -60, y := 100 + 0 } :=
  reloading_update_integrates.1 _

/-! ## Event cursor lemmas for the scripted bullet engine -/

theorem firstIdxGt_none_iff (es : List BulletEvent) (k : ℕ) :
    firstIdxGt es k = none ↔ ∀ e ∈ es, e.at' ≤ k := by
  induction es with
  | nil => simp [firstIdxGt]
  | cons e tl ih =>
    simp only [firstIdxGt]
    split_ifs with h
    · refine iff_of_false (by simp) fun hall => ?_
      have := hall e (List.mem_cons_self e tl)
      omega
    · simp only [Option.map_eq_none', ih, List.mem_cons]
      constructor
      · intro hall f hf
        rcases hf with rfl | hf
        · omega
        · exact hall f hf
      · intro hall f hf
        exact hall f (Or.inr hf)

theorem firstIdxGt_some_iff (es : List BulletEvent) (k : ℕ) :
    ∀ i : ℕ, firstIdxGt es k = some i ↔
      ∃ h : i < es.length, k < (es.get ⟨i, h⟩).at' ∧
        ∀ j : Fin es.length, (j : ℕ) < i → (es.get j).at' ≤ k := by
  induction es with
  | nil =>
    intro i
    simp [firstIdxGt]
  | cons e tl ih =>
    intro i
    simp only [firstIdxGt]
    split_ifs with h
    · constructor
      · intro hsome
        have h0 : i = 0 := by
          have := Option.some.inj hsome
          omega
        subst h0
        refine ⟨by simp, h, fun j hj => absurd hj (Nat.not_lt_zero _)⟩
      · rintro ⟨hlen, hgt, hall⟩
        cases i with
        | zero => rfl
        | succ i2 =>
          have h2 : e.at' ≤ k := hall ⟨0, Nat.succ_pos _⟩ (Nat.succ_pos _)
          omega
    · rw [Option.map_eq_some']
      constructor
      · rintro ⟨a, ha, rfl⟩
        obtain ⟨hlen, hgt, hall⟩ := (ih a).mp ha
        refine ⟨Nat.succ_lt_succ hlen, hgt, ?_⟩
        rintro ⟨jv, hjv⟩ hj
        cases jv with
        | zero => exact show e.at' ≤ k by omega
        | succ j2 =>
          have hl : j2 < tl.length := by
            simp only [List.length_cons] at hjv
            omega
          have hj2 : j2 + 1 < a + 1 := hj
          exact hall ⟨j2, hl⟩ (show j2 < a by omega)
      · rintro ⟨hlen, hgt, hall⟩
        cases i with
        | zero => exact absurd (show k < e.at' from hgt) h
        | succ i2 =>
          have hlen2 : i2 < tl.length := by
            simp only [List.length_cons] at hlen
            omega
          refine ⟨i2, (ih i2).mpr ⟨hlen2, hgt, ?_⟩, rfl⟩
          intro j hj
          exact hall ⟨j.1 + 1, Nat.succ_lt_succ j.2⟩ (Nat.succ_lt_succ hj)

theorem updateN_new_eq (trig : ℚ → ℚ × ℚ) (p : Point) (v a : Vector) (es : List BulletEvent)
    (hs : es.Pairwise (fun e f => e.at' < f.at'))
    (hb : ∀ e ∈ es, 1 ≤ e.at' ∧ e.at' < 65536) :
    ∀ k : ℕ, ∃ p2 v2 a2, Bullet.updateN trig k (Bullet.new p v a es) =
      some { frame := k % 65536, pos := p2, vel := v2, acc := a2,
             events := es, next_event := firstIdxGt es k } := by
  intro k
  induction k with
  | zero =>
    refine ⟨p, v, a, ?_⟩
    have h0 : firstIdxGt es 0 = if es.isEmpty then none else some 0 := by
      cases es with
      | nil => rfl
      | cons e tl =>
        have h1 : 0 < e.at' := (hb e (List.mem_cons_self e tl)).1
        simp [firstIdxGt, h1]
    rw [Bullet.updateN, h0]
    rfl
  | succ n ih =>
    obtain ⟨p2, v2, a2, hn⟩ := ih
    rw [Bullet.updateN, hn, Option.some_bind]
    rcases hc : firstIdxGt es n with _ | i
    · have hnone : firstIdxGt es (n + 1) = none := by
        rw [firstIdxGt_none_iff] at hc ⊢
        intro e he
        exact Nat.le_succ_of_le (hc e he)
      have hframe : (n % 65536 + 1) % 65536 = (n + 1) % 65536 := by omega
      refine ⟨{ x := p2.x + (v2.x + a2.x), y := p2.y + (v2.y + a2.y) },
        { x := v2.x + a2.x, y := v2.y + a2.y }, a2, ?_⟩
      simp only [Bullet.update, hc, hnone, hframe]
    · obtain ⟨hlen, hgt, hall⟩ := (firstIdxGt_some_iff es n i).mp hc
      have hmem := hb (es.get ⟨i, hlen⟩) (es.get_mem i hlen)
      have hn1 : n + 1 < 65536 := by omega
      have hget : es.get? i = some (es.get ⟨i, hlen⟩) := List.get?_eq_get hlen
      have hframe2 : (n % 65536 + 1) % 65536 = n + 1 := by omega
      have hmod : (n + 1) % 65536 = n + 1 := Nat.mod_eq_of_lt hn1
      by_cases hfire : (es.get ⟨i, hlen⟩).at' = n + 1
      · have hnext : firstIdxGt es (n + 1) =
            if i = es.length - 1 then none else some (i + 1) := by
          split_ifs with hlast
          · rw [firstIdxGt_none_iff]
            intro e he
            obtain ⟨⟨jv, hjv⟩, rfl⟩ := List.mem_iff_get.mp he
            rcases Nat.lt_or_ge jv i with hj | hj
            · have := hall ⟨jv, hjv⟩ hj
              omega
            · have hji : jv = i := by omega
              subst hji
              have heq : (es.get ⟨jv, hjv⟩).at' = (es.get ⟨jv, hlen⟩).at' := rfl
              omega
          · rw [firstIdxGt_some_iff]
            have hlen2 : i + 1 < es.length := by omega
            have hp := List.pairwise_iff_get.mp hs ⟨i, hlen⟩ ⟨i + 1, hlen2⟩
              (Fin.mk_lt_mk.mpr (Nat.lt_succ_self i))
            refine ⟨hlen2, by omega, ?_⟩
            rintro ⟨jv, hjv⟩ hj
            have hj2 : jv < i + 1 := hj
            rcases Nat.lt_or_ge jv i with hji | hji
            · have := hall ⟨jv, hjv⟩ hji
              omega
            · have hje : jv = i := by omega
              subst hje
              have heq : (es.get ⟨jv, hjv⟩).at' = (es.get ⟨jv, hlen⟩).at' := rfl
              omega
        have hniff : ¬((es.get ⟨i, hlen⟩).at' ≠ n + 1) := by omega
        rcases hev : (es.get ⟨i, hlen⟩).event_ty with deg | vv | aa
        · refine ⟨{ x := p2.x + (v2.x + a2.x), y := p2.y + (v2.y + a2.y) },
            Vector.rotate { x := v2.x + a2.x, y := v2.y + a2.y } (trig deg).1 (trig deg).2,
            a2, ?_⟩
          simp only [Bullet.update, hc, hget, hframe2, hmod, hnext, hev]
          rw [if_neg hniff]
        · refine ⟨{ x := p2.x + (v2.x + a2.x), y := p2.y + (v2.y + a2.y) }, vv, a2, ?_⟩
          simp only [Bullet.update, hc, hget, hframe2, hmod, hnext, hev]
          rw [if_neg hniff]
        · refine ⟨{ x := p2.x + (v2.x + a2.x), y := p2.y + (v2.y + a2.y) },
            { x := v2.x + a2.x, y := v2.y + a2.y }, aa, ?_⟩
          simp only [Bullet.update, hc, hget, hframe2, hmod, hnext, hev]
          rw [if_neg hniff]
      · have hnext : firstIdxGt es (n + 1) = some i := by
          rw [firstIdxGt_some_iff]
          refine ⟨hlen, by omega, ?_⟩
          intro j hj
          have := hall j hj
          omega
        refine ⟨{ x := p2.x + (v2.x + a2.x), y := p2.y + (v2.y + a2.y) },
          { x := v2.x + a2.x, y := v2.y + a2.y }, a2, ?_⟩
        simp only [Bullet.update, hc, hget, hframe2, hmod, hnext]
        rw [if_pos hfire]

/-- C6: for every bullet whose authored event list has strictly increasing
trigger ticks, all at least 1 (and below 2^16, the u16 range of the field),
the event at index i is applied during update k+1 exactly when k+1 equals its
trigger tick — i.e. exactly once over the bullet's lifetime, on the update
after which age equals the trigger tick, never earlier, later, or again. -/
theorem bullet_event_fires_exactly_once (trig : ℚ → ℚ × ℚ) (p : Point) (v a : Vector)
    (es : List BulletEvent)
    (hs : es.Pairwise (fun e f => e.at' < f.at'))
    (hb : ∀ e ∈ es, 1 ≤ e.at' ∧ e.at' < 65536)
    (i : ℕ) (hi : i < es.length) (k : ℕ) :
    firesAt trig (Bullet.new p v a es) k = some i ↔ k + 1 = (es.get ⟨i, hi⟩).at' := by
  obtain ⟨p2, v2, a2, hinv⟩ := updateN_new_eq trig p v a es hs hb k
  rw [firesAt, hinv, Option.some_bind]
  rcases hc : firstIdxGt es k with _ | j
  · have hall := (firstIdxGt_none_iff es k).mp hc
    have hik := hall _ (es.get_mem i hi)
    refine iff_of_false ?_ (by omega)
    simp only [Bullet.firesNow, hc]
    simp
  · obtain ⟨hjlen, hjgt, hjall⟩ := (firstIdxGt_some_iff es k j).mp hc
    have hjmem := hb _ (es.get_mem j hjlen)
    have hk1 : k + 1 < 65536 := by omega
    have hget : es.get? j = some (es.get ⟨j, hjlen⟩) := List.get?_eq_get hjlen
    have hmod : (k % 65536 + 1) % 65536 = k + 1 := by omega
    by_cases hfire : (es.get ⟨j, hjlen⟩).at' = k + 1
    · have hred : Bullet.firesNow
          { frame := k % 65536, pos := p2, vel := v2, acc := a2,
            events := es, next_event := some j } = some j := by
        simp only [Bullet.firesNow, hget, hmod]
        rw [if_pos hfire]
      rw [hred]
      constructor
      · intro hsome
        have hji : j = i := Option.some.inj hsome
        subst hji
        exact hfire.symm
      · intro hk
        have hij : i = j := by
          rcases Nat.lt_trichotomy i j with hlt | heq | hgt2
          · have := hjall ⟨i, hi⟩ hlt
            omega
          · exact heq
          · have hp := List.pairwise_iff_get.mp hs ⟨j, hjlen⟩ ⟨i, hi⟩
              (Fin.mk_lt_mk.mpr hgt2)
            omega
        subst hij
        rfl
    · have hred : Bullet.firesNow
          { frame := k % 65536, pos := p2, vel := v2, acc := a2,
            events := es, next_event := some j } = none := by
        simp only [Bullet.firesNow, hget, hmod]
        rw [if_neg hfire]
      rw [hred]
      refine iff_of_false (by simp) fun hk => ?_
      rcases Nat.lt_trichotomy i j with hlt | heq | hgt2
      · have := hjall ⟨i, hi⟩ hlt
        omega
      · subst heq
        exact hfire (by omega)
      · have hp := List.pairwise_iff_get.mp hs ⟨j, hjlen⟩ ⟨i, hi⟩
          (Fin.mk_lt_mk.mpr hgt2)
        omega

/-- C6 witness: the authored level bullet (events at ticks 20, 40, 60, 80)
fires its second event during update 40 and the criterion agrees. -/
theorem bullet_event_fires_exactly_once_witness :
    firesAt (fun _ => (1, 0))
        (Bullet.new { x := 300, y := 50 } { x := 0, y := 4 } { x := 0, y := 0 }
          levelBulletEvents) 39 = some 1 ↔
      39 + 1 = (levelBulletEvents.get ⟨1, by decide⟩).at' :=
  bullet_event_fires_exactly_once (fun _ => (1, 0)) _ _ _ levelBulletEvents
    (by decide) (by decide) 1 (by decide) 39

end WasmGame
